import Mathlib

/-!
Verification of the Notion-journal-to-Obsidian exporter
(`src/notion/exportNotionJournalToObsidian.ts`).

The script's pure core is shallowly embedded here:
* styled text runs (`RichTextItemResponse`) and `toInlineMarkdown`,
* `sanitizeFileName`, `ensureUniqueFileName` (the `Set` of used names is
  modelled as the list of names inserted so far, newest first),
* blocks and the renderer `stringifyBlock` / `stringifyBlocks` (a block's
  lazily fetched children are materialised as a `children` field, guarded by
  the `has_children` flag exactly as the script guards its fetch),
* the cursor-pagination loop shared by `fetchBlocksRecursively` and
  `fetchAllPages` (the remote endpoint becomes an explicit function from a
  cursor to a response; a `fuel` argument makes the loop total, `none`
  meaning the loop did not finish within `fuel` requests),
* `formatDate` and the per-page markdown assembly of `run`.

JavaScript semantics kept by the embedding: a `string | null` tested for
truthiness (`item.href ? …`, `response.next_cursor && …`) is falsy both when
null and when empty, strings are sequences of characters, and `Set#has` /
`Set#add` are membership and insertion.
-/

namespace NotionExport

/-- The five boolean style annotations of a rich text item. -/
structure Annotations where
  bold : Bool
  italic : Bool
  strikethrough : Bool
  underline : Bool
  code : Bool
deriving DecidableEq, Fintype

/-- A rich text item (`RichTextItemResponse`): either a plain text run or an
equation run.  Equation runs also carry `plain_text`, annotations and `href`
in the API; the renderer ignores them. -/
inductive RichTextItem where
  | text (plain_text : String) (annotations : Annotations) (href : Option String)
  | equation (expression : String) (plain_text : String)
      (annotations : Annotations) (href : Option String)
deriving DecidableEq

/-- One rich text item rendered to inline markdown: the body of the `map` in
`toInlineMarkdown` (lines 28–48 of the script). -/
def toInlineMarkdownItem (item : RichTextItem) : String :=
  match item with
  | .equation expression _ _ _ => "$" ++ expression ++ "$"
  | .text base annotations href =>
    let withCode := if annotations.code then "`" ++ base ++ "`" else base
    let withBold := if annotations.bold then "**" ++ withCode ++ "**" else withCode
    let withItalic := if annotations.italic then "*" ++ withBold ++ "*" else withBold
    let withStrike :=
      if annotations.strikethrough then "~~" ++ withItalic ++ "~~" else withItalic
    let withUnderline :=
      if annotations.underline then "<u>" ++ withStrike ++ "</u>" else withStrike
    -- `item.href ? `[…](…)` : withUnderline`: a JS string is truthy iff it is
    -- neither null nor empty.
    match href with
    | some h =>
        if h.length = 0 then withUnderline
        else "[" ++ withUnderline ++ "](" ++ h ++ ")"
    | none => withUnderline

/-- `toInlineMarkdown` (lines 26–50): map each item and join with `""`. -/
def toInlineMarkdown (richText : List RichTextItem) : String :=
  String.join (richText.map toInlineMarkdownItem)

/-- Spec-side description of the style wrapping (§4.3 of the spec): the list
of (condition, opening wrapper, closing wrapper) steps in the fixed stated
order inline-code → bold → italic → strikethrough → underline. -/
def specStyleSteps (a : Annotations) : List (Bool × String × String) :=
  [(a.code, "`", "`"), (a.bold, "**", "**"), (a.italic, "*", "*"),
   (a.strikethrough, "~~", "~~"), (a.underline, "<u>", "</u>")]

/-- Wrap `s` in `l`/`r` when `b` is set. -/
def wrapIf (b : Bool) (l r s : String) : String := if b then l ++ s ++ r else s

/-- Spec-side composition for a non-expression run, modelled from §4.3 of the
spec: fold the style steps innermost-to-outermost over the payload, then wrap
the fully-styled result as a markdown link when a link target is present
(present = neither null nor empty, the script's truthiness test). -/
def specNest (plain : String) (a : Annotations) (href : Option String) : String :=
  let styled := (specStyleSteps a).foldl (fun s step => wrapIf step.1 step.2.1 step.2.2 s) plain
  match href with
  | some url => if url.length = 0 then styled else "[" ++ styled ++ "](" ++ url ++ ")"
  | none => styled

/-- Characters replaced by `sanitizeFileName`: the regex class
`[<>:"/\\|?*\x00-\x1F]` (line 69). -/
def forbiddenChar (c : Char) : Bool :=
  c = '<' || c = '>' || c = ':' || c = '"' || c = '/' || c = '\\' ||
  c = '|' || c = '?' || c = '*' || decide (c.toNat < 32)

/-- JavaScript `\s` (also the set trimmed by `String#trim`): tab, line feed,
vertical tab, form feed, carriage return, space, no-break space, ogham space
mark, the en-quad…hair-space range, line and paragraph separators, narrow
no-break space, medium mathematical space, ideographic space, BOM. -/
def isJsWhitespace (c : Char) : Bool :=
  let n := c.toNat
  n = 9 || n = 10 || n = 11 || n = 12 || n = 13 || n = 32 ||
  n = 160 || n = 5760 || (8192 ≤ n && n ≤ 8202) || n = 8232 ||
  n = 8233 || n = 8239 || n = 8287 || n = 12288 || n = 65279

/-- `replace(/\s+/g, " ")` on the character list: each maximal run of
whitespace characters becomes a single space.  The flag records whether the
previous character was part of a whitespace run. -/
def collapseWhitespace : Bool → List Char → List Char
  | _, [] => []
  | prevWs, c :: cs =>
    if isJsWhitespace c then
      if prevWs then collapseWhitespace true cs
      else ' ' :: collapseWhitespace true cs
    else c :: collapseWhitespace false cs

/-- JavaScript `String#trim` on the character list. -/
def jsTrimList (l : List Char) : List Char :=
  ((l.dropWhile isJsWhitespace).reverse.dropWhile isJsWhitespace).reverse

/-- JavaScript `String#trim`. -/
def jsTrim (s : String) : String := String.mk (jsTrimList s.data)

/-- `sanitizeFileName` (lines 66–72): replace each forbidden character with a
hyphen, collapse whitespace runs to one space, trim, truncate to 180. -/
def sanitizeFileName (name : String) : String :=
  String.mk
    (((jsTrimList
        (collapseWhitespace false
          (name.data.map fun c => if forbiddenChar c then '-' else c)))).take 180)

/-- The source of a media URL: `{ type: "external", external: { url } }` or
`{ type: "file", file: { url } }`.  The renderer prefers the external URL
exactly by discriminating on the tag. -/
inductive FileSource where
  | external (url : String)
  | file (url : String)
deriving DecidableEq

/-- URL resolution used by every media branch, e.g. lines 153–156:
`x.type === "external" ? x.external.url : x.file.url`. -/
def FileSource.url : FileSource → String
  | .external url => url
  | .file url => url

/-- A callout icon: an emoji icon, some other icon kind, or absent
(`block.callout.icon?.type === "emoji"`). -/
inductive CalloutIcon where
  | emoji (e : String)
  | otherIcon
  | absent
deriving DecidableEq

/-- The type-specific payload of a block, one constructor per `block.type`
branch of `stringifyBlock`; `unsupported` stands for every type the script
does not recognise (its final `return ""`). -/
inductive BlockPayload where
  | paragraph (rich_text : List RichTextItem)
  | heading_1 (rich_text : List RichTextItem)
  | heading_2 (rich_text : List RichTextItem)
  | heading_3 (rich_text : List RichTextItem)
  | to_do (checked : Bool) (rich_text : List RichTextItem)
  | toggle (rich_text : List RichTextItem)
  | quote (rich_text : List RichTextItem)
  | callout (icon : CalloutIcon) (rich_text : List RichTextItem)
  | code (language : Option String) (rich_text : List RichTextItem)
  | divider
  | equation (expression : String)
  | image (source : FileSource) (caption : List RichTextItem)
  | bookmark (url : String)
  | file (source : FileSource) (caption : List RichTextItem)
  | video (source : FileSource)
  | audio (source : FileSource)
  | pdf (source : FileSource) (caption : List RichTextItem)
  | link_preview (url : String)
  | child_page (title : String)
  | child_database (title : String)
  | table_of_contents
  | bulleted_list_item (rich_text : List RichTextItem)
  | numbered_list_item (rich_text : List RichTextItem)
deriving DecidableEq

/-- A block with its subtree materialised: `children` is what
`fetchBlocksRecursively(block.id)` returns for this block, and is consulted
only when `has_children` is set, exactly as the script only fetches then. -/
inductive Block where
  | node (id : String) (has_children : Bool) (payload : BlockPayload)
      (children : List Block)

/-- `indent` (line 74): `"  ".repeat(depth)`, i.e. `2·depth` spaces. -/
def indent (depth : Nat) : String := String.mk (List.replicate (2 * depth) ' ')

/-- `normalizeText` (line 24) on the character list: `\r\n` → `\n`. -/
def normalizeTextList : List Char → List Char
  | [] => []
  | '\r' :: '\n' :: rest => '\n' :: normalizeTextList rest
  | c :: rest => c :: normalizeTextList rest

/-- `normalizeText` (line 24): `value.replace(/\r\n/g, "\n")`. -/
def normalizeText (value : String) : String := String.mk (normalizeTextList value.data)

/-- The post-processing of `stringifyBlocks` (lines 225–228) applied to the
already-rendered strings: normalize line endings, drop strings that are blank
after trimming, join with a blank line. -/
def renderBlockList (markdownLines : List String) : String :=
  String.intercalate "\n\n"
    ((markdownLines.map normalizeText).filter fun line => decide (0 < (jsTrim line).length))

mutual

/-- `stringifyBlock` (lines 76–215). -/
def stringifyBlock : Block → Nat → String
  | .node _ has_children payload children, depth =>
    -- nested = has_children ? fetched children : [];
    -- nestedMarkdown = nested.length > 0 ? "\n" + stringifyBlocks(nested, depth+1) : ""
    let nestedMarkdown :=
      if has_children then
        if children.length > 0 then
          "\n" ++ renderBlockList (stringifyBlockList children (depth + 1))
        else ""
      else ""
    match payload with
    | .paragraph rich_text =>
      let text := toInlineMarkdown rich_text
      if text.length > 0 then indent depth ++ text ++ nestedMarkdown else ""
    | .heading_1 rich_text => indent depth ++ "# " ++ toInlineMarkdown rich_text
    | .heading_2 rich_text => indent depth ++ "## " ++ toInlineMarkdown rich_text
    | .heading_3 rich_text => indent depth ++ "### " ++ toInlineMarkdown rich_text
    | .to_do checked rich_text =>
      let checkedMark := if checked then "x" else " "
      indent depth ++ "- [" ++ checkedMark ++ "] " ++ toInlineMarkdown rich_text ++
        nestedMarkdown
    | .toggle rich_text =>
      indent depth ++ "- " ++ toInlineMarkdown rich_text ++ nestedMarkdown
    | .quote rich_text =>
      indent depth ++ "> " ++ toInlineMarkdown rich_text ++ nestedMarkdown
    | .callout icon rich_text =>
      let iconText :=
        match icon with
        | .emoji e => e ++ " "
        | _ => ""
      indent depth ++ "> " ++ iconText ++ toInlineMarkdown rich_text ++ nestedMarkdown
    | .code language rich_text =>
      -- block.code.language ?? "text"
      let lang := language.getD "text"
      let body := toInlineMarkdown rich_text
      indent depth ++ "```" ++ lang ++ "\n" ++ body ++ "\n" ++ indent depth ++ "```"
    | .divider => indent depth ++ "---"
    | .equation expression => indent depth ++ "$$" ++ expression ++ "$$"
    | .image source caption =>
      let captionText := toInlineMarkdown caption
      let alt := if captionText.length > 0 then captionText else "image"
      indent depth ++ "![" ++ alt ++ "](" ++ source.url ++ ")"
    | .bookmark url => indent depth ++ "[" ++ url ++ "](" ++ url ++ ")"
    | .file source caption =>
      let captionText := toInlineMarkdown caption
      let label := if captionText.length > 0 then captionText else "file"
      indent depth ++ "[" ++ label ++ "](" ++ source.url ++ ")"
    | .video source => indent depth ++ "[video](" ++ source.url ++ ")"
    | .audio source => indent depth ++ "[audio](" ++ source.url ++ ")"
    | .pdf source _ => indent depth ++ "[pdf](" ++ source.url ++ ")"
    | .link_preview url => indent depth ++ "[" ++ url ++ "](" ++ url ++ ")"
    | .child_page title => indent depth ++ "## " ++ title
    | .child_database title => indent depth ++ "## " ++ title
    | .table_of_contents => indent depth ++ "[Table of Contents]"
    | .bulleted_list_item rich_text =>
      indent depth ++ "- " ++ toInlineMarkdown rich_text ++ nestedMarkdown
    | .numbered_list_item rich_text =>
      indent depth ++ "1. " ++ toInlineMarkdown rich_text ++ nestedMarkdown

/-- The `blocks.map((block) => stringifyBlock(block, depth))` of
`stringifyBlocks` (lines 221–223). -/
def stringifyBlockList : List Block → Nat → List String
  | [], _ => []
  | b :: bs, depth => stringifyBlock b depth :: stringifyBlockList bs depth

end

/-- `stringifyBlocks` (lines 217–229). -/
def stringifyBlocks (blocks : List Block) (depth : Nat) : String :=
  renderBlockList (stringifyBlockList blocks depth)

/-- One entry of a paginated listing response: either a fully-resolved record
(`isFullBlock` / `isFullPage` holds) or a partial record that the filter
drops. -/
inductive Entry (α : Type) where
  | full (item : α)
  | stub
deriving DecidableEq

/-- `response.results.filter(isFullBlock)` / `.filter(isFullPage)`: keep the
payloads of the fully-resolved entries, in order. -/
def fullItems {α : Type} (results : List (Entry α)) : List α :=
  results.filterMap fun e =>
    match e with
    | .full item => some item
    | .stub => none

/-- One page of a cursor-paginated listing response. -/
structure ListResponse (α : Type) where
  results : List (Entry α)
  has_more : Bool
  next_cursor : Option String
deriving DecidableEq

/-- The inner `fetchPage` loop shared by `fetchBlocksRecursively`
(lines 234–250) and `fetchAllPages` (lines 276–293).  The endpoint is the
explicit function `fetchFn` from a start cursor to a response; `fuel` bounds
the number of requests so the loop is total, `none` meaning the loop did not
finish within `fuel` requests (the script's loop is unbounded).  The loop
recurses exactly when `response.has_more && response.next_cursor` is truthy,
i.e. `has_more` is set and the cursor is neither null nor empty. -/
def fetchPage {α : Type} (fetchFn : Option String → ListResponse α) :
    Nat → Option String → List α → Option (List α)
  | 0, _, _ => none
  | Nat.succ fuel, cursor, acc =>
    let response := fetchFn cursor
    let nextAcc := acc ++ fullItems response.results
    match response.has_more, response.next_cursor with
    | true, some next =>
      if next.length = 0 then some nextAcc
      else fetchPage fetchFn fuel (some next) nextAcc
    | true, none => some nextAcc
    | false, _ => some nextAcc

/-- The sequence of responses the loop `fetchPage` receives, in request
order: the same recursion as `fetchPage`, recording each response. -/
def pageTrace {α : Type} (fetchFn : Option String → ListResponse α) :
    Nat → Option String → List (ListResponse α)
  | 0, _ => []
  | Nat.succ fuel, cursor =>
    let response := fetchFn cursor
    match response.has_more, response.next_cursor with
    | true, some next =>
      if next.length = 0 then [response]
      else response :: pageTrace fetchFn fuel (some next)
    | true, none => [response]
    | false, _ => [response]

/-- A data source of the configured database. -/
structure DataSource where
  id : String

/-- The configured database: its reported list of data sources, in reported
order. -/
structure Database where
  data_sources : List DataSource

/-- `fetchAllPages` (lines 255–296).  `queryFn dsId cursor` is one
`dataSources.query` request against data source `dsId`; the page payload type
is abstract.  The script destructures `[firstDataSource]` after checking the
list is non-empty, then drains the pagination loop for that one data source.
`none` again means the (unbounded) loop did not finish within `fuel`. -/
def fetchAllPages {α : Type} (database : Database)
    (queryFn : String → Option String → ListResponse α) (fuel : Nat) :
    Option (Except String (List α)) :=
  match database.data_sources with
  | [] => some (.error "Database has no data sources to query.")
  | firstDataSource :: _ =>
    (fetchPage (queryFn firstDataSource.id) fuel none []).map .ok

/-- Line 302: `desiredName.length > 0 ? desiredName : "Untitled"`. -/
def stemName (desiredName : String) : String :=
  if desiredName.length > 0 then desiredName else "Untitled"

/-- `ensureUniqueFileName` (lines 298–322).  The `Set` of used names is the
list of names added so far (newest first); `none` models the thrown
`Could not allocate unique filename` error.  `Array.from({length: 10000},
(_, i) => i + 2)` is the list `[2, …, 10001]`, i.e. `List.range' 2 10000`. -/
def ensureUniqueFileName (desiredName : String) (existing : List String) :
    Option (String × List String) :=
  let baseName := stemName desiredName
  let candidate := baseName ++ ".md"
  if candidate ∈ existing then
    match List.find?
        (fun index => decide ((baseName ++ " (" ++ toString index ++ ").md") ∉ existing))
        (List.range' 2 10000) with
    | some index =>
      some (baseName ++ " (" ++ toString index ++ ").md",
        (baseName ++ " (" ++ toString index ++ ").md") :: existing)
    | none => none
  else
    some (candidate, candidate :: existing)

/-- A whole batch fed through `ensureUniqueFileName` with one shared used-name
set, in input order: the `pages.map` of `run` (lines 332–335), whose mapper
is synchronous and therefore sequential. -/
def allocBatch : List String → List String → Option (List String)
  | [], _ => some []
  | title :: titles, existing =>
    match ensureUniqueFileName title existing with
    | none => none
    | some (name, existing') =>
      match allocBatch titles existing' with
      | none => none
      | some names => some (name :: names)

/-- `formatDate` (line 324): `createdTime.slice(0, 10)`. -/
def formatDate (createdTime : String) : String := createdTime.take 10

/-- The markdown written for one page by `run` (lines 340–342): frontmatter
with the formatted creation date, a blank line, the rendered block tree, a
trailing newline. -/
def pageMarkdown (created_time : String) (blocks : List Block) : String :=
  let content := stringifyBlocks blocks 0
  let frontmatter := "---\nWritten: " ++ formatDate created_time ++ "\n---"
  frontmatter ++ "\n\n" ++ content ++ "\n"

/-! Measurement helpers and concrete sample data used by the statements. -/

/-- Number of leading space characters of a character list. -/
def leadingSpacesL : List Char → Nat
  | [] => 0
  | c :: cs => if c = ' ' then leadingSpacesL cs + 1 else 0

/-- Number of leading space characters of the first line of a string. -/
def firstLineLeadingSpaces (s : String) : Nat :=
  leadingSpacesL (s.data.takeWhile fun c => decide (c ≠ '\n'))

/-- The children the renderer consults for a block: the materialised children
when `has_children` is set, nothing otherwise (the `nested` of line 80). -/
def blockNested : Block → List Block
  | .node _ has_children _ children => if has_children then children else []

/-- The block kinds whose template appends `nestedMarkdown`: paragraph (when
its composed text is non-empty), to-do, toggle, quote, callout, and the two
list items.  Every other branch of `stringifyBlock` ignores its children. -/
def appendsChildren : Block → Bool
  | .node _ _ payload _ =>
    match payload with
    | .paragraph rich_text => decide (0 < (toInlineMarkdown rich_text).length)
    | .to_do _ _ => true
    | .toggle _ => true
    | .quote _ => true
    | .callout _ _ => true
    | .bulleted_list_item _ => true
    | .numbered_list_item _ => true
    | _ => false

/-- No style annotation set. -/
def noStyle : Annotations := ⟨false, false, false, false, false⟩

/-- The block tree of the end-to-end scenario: one paragraph with bold text
`Packed bags` owning one nested unchecked to-do `Buy tickets`. -/
def tripBlocks : List Block :=
  [.node "p1" true
    (.paragraph [.text "Packed bags" ⟨true, false, false, false, false⟩ none])
    [.node "t1" false (.to_do false [.text "Buy tickets" noStyle none]) []]]

/-- A childless paragraph whose composed text starts with a space. -/
def spaceParagraph : Block :=
  .node "p2" false (.paragraph [.text " x" noStyle none]) []

/-- A quote with one divider child, used to exercise the depth invariant. -/
def demoQuote : Block :=
  .node "q1" true (.quote [.text "hi" noStyle none])
    [.node "d1" false .divider []]

/-- A two-page source: the first page has two full entries and one partial
entry and points at a second page; the second page still claims more results
but supplies no cursor. -/
def twoPageFetch : Option String → ListResponse Nat
  | none => ⟨[.full 1, .stub, .full 2], true, some "next"⟩
  | some _ => ⟨[.full 3], true, none⟩

/-- A query endpoint whose every page is empty and final. -/
def emptyQuery : String → Option String → ListResponse Nat :=
  fun _ _ => ⟨[], false, none⟩

/-! Shared helper lemmas. -/

theorem length_zero_iff_empty (s : String) : s.length = 0 ↔ s = "" := by
  constructor
  · intro h
    exact String.ext (List.length_eq_zero.mp h)
  · intro h
    rw [h]
    rfl

/-! ## C1 -/

/-- C1: for every non-expression styled run, `toInlineMarkdown` applies the
style wrappers innermost to outermost in the fixed order inline-code, bold,
italic, strikethrough, underline, hyperlink, each only when its annotation is
set — `specNest` spells that order out as a fold over the spec's step list
(§4.3), taking a link target as present when it is neither null nor empty,
which is the script's truthiness test on `item.href`. In particular a run
with bold, italic and a (non-empty) link target set and no other annotation
renders as `[***text***](url)`. -/
theorem c1_style_composition_order :
    (∀ (plain : String) (a : Annotations) (href : Option String),
      toInlineMarkdownItem (.text plain a href) = specNest plain a href) ∧
    (∀ (plain url : String), url ≠ "" →
      toInlineMarkdown [.text plain ⟨true, true, false, false, false⟩ (some url)]
        = "[***" ++ plain ++ "***](" ++ url ++ ")") := by
  constructor
  · intro plain a href
    rfl
  · intro plain url h
    have hlen : ¬ url.length = 0 := fun h0 => h ((length_zero_iff_empty url).mp h0)
    apply String.ext
    simp [toInlineMarkdown, toInlineMarkdownItem, hlen, String.data_append]

/-- Witness for C1 at a concrete input. -/
theorem c1_style_composition_order_witness :
    toInlineMarkdown [.text "text" ⟨true, true, false, false, false⟩ (some "url")]
      = "[***" ++ "text" ++ "***](" ++ "url" ++ ")" :=
  c1_style_composition_order.2 "text" "url" (by decide)

/-! ## C6 -/

/-- C6 is refuted: a run with an empty payload, no link and the bold
annotation set renders as the empty style wrapper `****`, not as the empty
string. -/
theorem c6_counterexample :
    toInlineMarkdown [.text "" ⟨true, false, false, false, false⟩ none] = "****" ∧
    ("****" : String) ≠ "" := by
  decide

/-- C6 amended: a run with an empty payload and no link renders as the empty
string exactly when none of the five style annotations is set; any set
annotation produces its (empty) style wrapper instead. -/
theorem c6_empty_payload :
    toInlineMarkdown [.text "" noStyle none] = "" ∧
    (∀ a : Annotations,
      toInlineMarkdown [.text "" a none] = "" ↔
        a.bold = false ∧ a.italic = false ∧ a.strikethrough = false ∧
        a.underline = false ∧ a.code = false) := by
  constructor
  · decide
  · decide

/-! ## C3 -/

/-- C3 is refuted: a paragraph with empty composed text and a child that
renders non-empty still contributes the empty string — the children are
dropped, not rendered. -/
theorem c3_counterexample :
    stringifyBlock (.node "p3" true (.paragraph []) [.node "d2" false .divider []]) 0
      = "" ∧
    stringifyBlocks [.node "d2" false .divider []] 1 ≠ "" := by
  decide

/-- C3 amended: a paragraph block contributes the empty string exactly when
its composed inline text is empty, regardless of its children; in that case
its children are dropped. -/
theorem c3_paragraph_empty_iff :
    ∀ (id : String) (has_children : Bool) (rich_text : List RichTextItem)
      (children : List Block) (depth : Nat),
      stringifyBlock (.node id has_children (.paragraph rich_text) children) depth = ""
        ↔ toInlineMarkdown rich_text = "" := by
  intro id hc rt ch depth
  by_cases h : (toInlineMarkdown rt).length > 0
  · have hne : ¬ toInlineMarkdown rt = "" := by
      intro h0
      rw [h0] at h
      exact absurd h (by decide)
    simp only [stringifyBlock]
    rw [if_pos h]
    apply iff_of_false _ hne
    intro h0
    have hl := congrArg String.length h0
    rw [String.length_append, String.length_append] at hl
    have hz : ("" : String).length = 0 := rfl
    rw [hz] at hl
    omega
  · have he : toInlineMarkdown rt = "" := by
      have : (toInlineMarkdown rt).length = 0 := by omega
      exact (length_zero_iff_empty _).mp this
    simp [stringifyBlock, h, he]

/-! ## C7 -/

/-- C7 is refuted: a pdf (document) block with the non-empty caption `report`
renders with the literal label `pdf`, not with its caption and not with the
literal `file`. -/
theorem c7_counterexample :
    stringifyBlock
        (.node "f1" false
          (.pdf (.external "https://e/x.pdf") [.text "report" noStyle none]) []) 0
      = "[pdf](https://e/x.pdf)" ∧
    ("[pdf](https://e/x.pdf)" : String) ≠ "[report](https://e/x.pdf)" ∧
    ("[pdf](https://e/x.pdf)" : String) ≠ "[file](https://e/x.pdf)" := by
  decide

/-- C7 amended: a file block renders as `[label](U)` with the label equal to
the composed caption when non-empty and to the literal `file` otherwise,
while a pdf block always renders as `[pdf](U)`, ignoring its caption; both
use the resolved URL (external preferred over internal storage). -/
theorem c7_file_pdf_labels :
    ∀ (id : String) (has_children : Bool) (children : List Block)
      (source : FileSource) (caption : List RichTextItem) (depth : Nat),
      stringifyBlock (.node id has_children (.file source caption) children) depth
        = indent depth ++ "[" ++
          (if (toInlineMarkdown caption).length > 0 then toInlineMarkdown caption
            else "file") ++ "](" ++ source.url ++ ")" ∧
      stringifyBlock (.node id has_children (.pdf source caption) children) depth
        = indent depth ++ "[pdf](" ++ source.url ++ ")" ∧
      (∀ caption' : List RichTextItem,
        stringifyBlock (.node id has_children (.pdf source caption) children) depth
          = stringifyBlock (.node id has_children (.pdf source caption') children) depth) := by
  intro id hc ch source caption depth
  refine ⟨rfl, rfl, fun caption' => rfl⟩

/-! ## C5 -/

/-- C5 is refuted: the end-to-end scenario's nested to-do is joined to its
parent paragraph by a single newline and is indented two spaces, so the
exported content is not the claimed string (which shows a blank line and no
indentation). -/
theorem c5_counterexample :
    pageMarkdown "2024-03-01T10:00:00.000Z" tripBlocks
      ≠ "---\nWritten: 2024-03-01\n---\n\n**Packed bags**\n\n- [ ] Buy tickets\n" := by
  decide

/-- C5 amended: the scenario exports exactly the text
`---\nWritten: 2024-03-01\n---\n\n**Packed bags**\n  - [ ] Buy tickets\n` —
the date is the first 10 characters of the creation timestamp, the body ends
with a trailing newline, and the nested to-do sits on the next line, indented
two spaces, joined by a single newline rather than a blank line. -/
theorem c5_trip_export :
    pageMarkdown "2024-03-01T10:00:00.000Z" tripBlocks
      = "---\nWritten: 2024-03-01\n---\n\n**Packed bags**\n  - [ ] Buy tickets\n" := by
  decide

/-! ## C8 -/

theorem mem_collapseWhitespace {c : Char} :
    ∀ (prevWs : Bool) (l : List Char), c ∈ collapseWhitespace prevWs l →
      c = ' ' ∨ c ∈ l := by
  intro prevWs l
  induction l generalizing prevWs with
  | nil => intro h; exact absurd h (List.not_mem_nil c)
  | cons a l ih =>
    intro h
    by_cases ha : isJsWhitespace a
    · by_cases hp : prevWs
      · simp only [collapseWhitespace, ha, if_true, hp] at h
        rcases ih true h with h' | h'
        · exact Or.inl h'
        · exact Or.inr (List.mem_cons_of_mem a h')
      · simp only [collapseWhitespace, ha, if_true, hp, if_false] at h
        rcases List.mem_cons.mp h with h' | h'
        · exact Or.inl h'
        · rcases ih true h' with h'' | h''
          · exact Or.inl h''
          · exact Or.inr (List.mem_cons_of_mem a h'')
    · simp only [collapseWhitespace, ha, if_false] at h
      rcases List.mem_cons.mp h with h' | h'
      · exact Or.inr (h' ▸ List.mem_cons_self a l)
      · rcases ih false h' with h'' | h''
        · exact Or.inl h''
        · exact Or.inr (List.mem_cons_of_mem a h'')

theorem mem_jsTrimList {c : Char} {l : List Char} (h : c ∈ jsTrimList l) : c ∈ l := by
  unfold jsTrimList at h
  rw [List.mem_reverse] at h
  have h2 := (List.dropWhile_sublist _).subset h
  rw [List.mem_reverse] at h2
  exact (List.dropWhile_sublist _).subset h2

/-- C8: `sanitizeFileName` maps the title `My/Note:<Test>*` to
`My-Note--Test--`; for every input the result has at most 180 characters and
contains no forbidden character (no character of `<>:"/\|?*` and no control
character `U+0000`–`U+001F`); the replace → collapse-whitespace → trim →
truncate order is the definition of `sanitizeFileName` itself. -/
theorem c8_sanitize :
    sanitizeFileName "My/Note:<Test>*" = "My-Note--Test--" ∧
    (∀ name : String, (sanitizeFileName name).length ≤ 180) ∧
    (∀ (name : String) (c : Char),
      c ∈ (sanitizeFileName name).data → forbiddenChar c = false) := by
  refine ⟨by decide, ?_, ?_⟩
  · intro name
    show (List.take 180 _).length ≤ 180
    rw [List.length_take]
    omega
  · intro name c hc
    have h1 : c ∈ jsTrimList (collapseWhitespace false
        (name.data.map fun c => if forbiddenChar c then '-' else c)) :=
      List.take_subset 180 _ hc
    have h2 := mem_jsTrimList h1
    rcases mem_collapseWhitespace false _ h2 with h3 | h3
    · rw [h3]
      decide
    · rcases List.mem_map.mp h3 with ⟨a, _, ha⟩
      by_cases hf : forbiddenChar a = true
      · simp only [hf, if_true] at ha
        rw [← ha]
        decide
      · have hf' : forbiddenChar a = false := by
          cases hfa : forbiddenChar a
          · rfl
          · exact absurd hfa hf
        rw [if_neg hf] at ha
        rw [← ha]
        exact hf'

/-- Witness for C8 at a concrete input. -/
theorem c8_sanitize_witness : forbiddenChar 'a' = false :=
  c8_sanitize.2.2 "a" 'a' (by decide)

/-! ## C2 -/

theorem find?_range'_spec (p : Nat → Bool) :
    ∀ (n s b : Nat), List.find? p (List.range' s n 1) = some b →
      s ≤ b ∧ b < s + n ∧ p b = true ∧ ∀ j, s ≤ j → j < b → p j = false := by
  intro n
  induction n with
  | zero =>
    intro s b h
    exact absurd h (by simp)
  | succ n ih =>
    intro s b h
    rw [List.range'_succ, List.find?_cons] at h
    by_cases hp : p s = true
    · rw [hp] at h
      simp only [] at h
      have hb : s = b := Option.some.inj h
      subst hb
      exact ⟨Nat.le_refl s, by omega, hp, fun j h1 h2 => absurd (Nat.lt_of_le_of_lt h1 h2)
        (Nat.lt_irrefl s)⟩
    · have hp' : p s = false := by
        cases hps : p s
        · rfl
        · exact absurd hps hp
      rw [hp'] at h
      simp only [] at h
      rcases ih (s + 1) b h with ⟨h1, h2, h3, h4⟩
      refine ⟨by omega, by omega, h3, ?_⟩
      intro j hj1 hj2
      by_cases hjs : j = s
      · rw [hjs]; exact hp'
      · exact h4 j (by omega) hj2

/-- What one successful allocation guarantees: the returned name was not yet
used, the used set grows by exactly that name, a still-free unsuffixed
candidate is returned as-is, and an occupied candidate leads to the smallest
free suffix index `k ≥ 2`, all smaller indices being occupied. -/
theorem ensureUniqueFileName_spec (title : String) (existing : List String)
    (name : String) (existing' : List String)
    (h : ensureUniqueFileName title existing = some (name, existing')) :
    name ∉ existing ∧ existing' = name :: existing ∧
    (stemName title ++ ".md" ∉ existing → name = stemName title ++ ".md") ∧
    (stemName title ++ ".md" ∈ existing →
      ∃ k, 2 ≤ k ∧ k ≤ 10001 ∧
        name = stemName title ++ " (" ++ toString k ++ ").md" ∧
        ∀ j, 2 ≤ j → j < k →
          (stemName title ++ " (" ++ toString j ++ ").md") ∈ existing) := by
  unfold ensureUniqueFileName at h
  by_cases hmem : (stemName title ++ ".md") ∈ existing
  · rw [if_pos hmem] at h
    cases hfind : List.find?
        (fun index =>
          decide ((stemName title ++ " (" ++ toString index ++ ").md") ∉ existing))
        (List.range' 2 10000) with
    | none =>
      rw [hfind] at h
      exact absurd h (by simp)
    | some k =>
      rw [hfind] at h
      simp only [Option.some.injEq, Prod.mk.injEq] at h
      obtain ⟨hname, hex⟩ := h
      rcases find?_range'_spec _ 10000 2 k hfind with ⟨hk1, hk2, hk3, hk4⟩
      have hfree : (stemName title ++ " (" ++ toString k ++ ").md") ∉ existing :=
        of_decide_eq_true hk3
      refine ⟨hname ▸ hfree, by rw [← hname, ← hex], fun hc => absurd hmem hc, fun _ => ?_⟩
      refine ⟨k, hk1, by omega, hname.symm, ?_⟩
      intro j hj1 hj2
      have := hk4 j hj1 hj2
      have := of_decide_eq_false this
      exact not_not.mp this
  · rw [if_neg hmem] at h
    simp only [Option.some.injEq, Prod.mk.injEq] at h
    obtain ⟨hname, hex⟩ := h
    exact ⟨hname ▸ hmem, by rw [← hname, ← hex], fun _ => hname.symm,
      fun hc => absurd hc hmem⟩

theorem allocBatch_nodup_aux :
    ∀ (titles existing : List String) (names : List String),
      allocBatch titles existing = some names →
      names.Nodup ∧ ∀ n ∈ names, n ∉ existing := by
  intro titles
  induction titles with
  | nil =>
    intro existing names h
    simp only [allocBatch, Option.some.injEq] at h
    subst h
    exact ⟨List.nodup_nil, by simp⟩
  | cons t ts ih =>
    intro existing names h
    simp only [allocBatch] at h
    cases h1 : ensureUniqueFileName t existing with
    | none => rw [h1] at h; exact absurd h (by simp)
    | some pair =>
      obtain ⟨name, existing'⟩ := pair
      rw [h1] at h
      have h' : (match allocBatch ts existing' with
          | none => none
          | some names => some (name :: names)) = some names := h
      cases h2 : allocBatch ts existing' with
      | none => rw [h2] at h'; exact absurd h' (by simp)
      | some rest =>
        rw [h2] at h'
        simp only [Option.some.injEq] at h'
        subst h'
        rcases ensureUniqueFileName_spec t existing name existing' h1 with
          ⟨hfree, hgrow, _, _⟩
        rcases ih existing' rest h2 with ⟨hnodup, hout⟩
        rw [hgrow] at hout
        constructor
        · rw [List.nodup_cons]
          refine ⟨fun hmem => ?_, hnodup⟩
          have := hout name hmem
          exact this (List.mem_cons_self name existing)
        · intro n hn
          rcases List.mem_cons.mp hn with hn | hn
          · rw [hn]; exact hfree
          · have := hout n hn
            intro hcon
            exact this (List.mem_cons_of_mem name hcon)

/-- C2 is refuted: in the batch `["C", "C", "C (2)"]` the third title's stem
`C (2)` occurs for the first time, yet its unsuffixed name `C (2).md` was
already taken by the second allocation, so it receives the suffixed name
`C (2) (2).md` instead of the unsuffixed one the claim promises. -/
theorem c2_counterexample :
    allocBatch ["C", "C", "C (2)"] []
      = some ["C.md", "C (2).md", "C (2) (2).md"] ∧
    ("C (2) (2).md" : String) ≠ "C (2).md" := by
  decide

/-- C2 amended: a batch processed in input order with one shared used-name
set gets pairwise-distinct names; a title whose candidate `<stem>.md` is
still free (in particular the first occurrence of a stem, unless an earlier
suffixed allocation already produced that exact name) gets the unsuffixed
name, and a title whose candidate is taken gets the smallest free suffixed
name `<stem> (k).md` with `k ≥ 2` — so exact duplicates from an empty set
get `(2)`, `(3)`, … deterministically in input order, as the three
`Daily Note` titles illustrate. -/
theorem c2_unique_names :
    (∀ (titles names : List String), allocBatch titles [] = some names → names.Nodup) ∧
    (∀ (title : String) (existing : List String) (name : String)
        (existing' : List String),
      ensureUniqueFileName title existing = some (name, existing') →
      name ∉ existing ∧ existing' = name :: existing ∧
      (stemName title ++ ".md" ∉ existing → name = stemName title ++ ".md") ∧
      (stemName title ++ ".md" ∈ existing →
        ∃ k, 2 ≤ k ∧ k ≤ 10001 ∧
          name = stemName title ++ " (" ++ toString k ++ ").md" ∧
          ∀ j, 2 ≤ j → j < k →
            (stemName title ++ " (" ++ toString j ++ ").md") ∈ existing)) ∧
    allocBatch ["Daily Note", "Daily Note", "Daily Note"] []
      = some ["Daily Note.md", "Daily Note (2).md", "Daily Note (3).md"] := by
  refine ⟨?_, ensureUniqueFileName_spec, by decide⟩
  intro titles names h
  exact (allocBatch_nodup_aux titles [] names h).1

/-- Witness for C2 at concrete inputs. -/
theorem c2_unique_names_witness :
    (["x.md"] : List String).Nodup ∧ ("A (2).md" : String) ∉ (["A.md"] : List String) :=
  ⟨c2_unique_names.1 ["x"] ["x.md"] (by decide),
    (c2_unique_names.2.1 "A" ["A.md"] "A (2).md" ["A (2).md", "A.md"] (by decide)).1⟩

/-! ## C9 -/

theorem leadingSpacesL_takeWhile (p : Char → Bool) (hp : p ' ' = true) :
    ∀ l : List Char, leadingSpacesL (l.takeWhile p) = leadingSpacesL l := by
  intro l
  induction l with
  | nil => rfl
  | cons c cs ih =>
    rw [List.takeWhile_cons]
    by_cases hsp : c = ' '
    · subst hsp
      rw [hp]
      show leadingSpacesL (' ' :: cs.takeWhile p)
        = if (' ' = ' ') then leadingSpacesL cs + 1 else 0
      rw [if_pos rfl]
      show (if (' ' = ' ') then leadingSpacesL (cs.takeWhile p) + 1 else 0)
        = leadingSpacesL cs + 1
      rw [if_pos rfl, ih]
    · cases hpc : p c
      · show leadingSpacesL [] = if c = ' ' then leadingSpacesL cs + 1 else 0
        rw [if_neg hsp]
        rfl
      · show (if c = ' ' then leadingSpacesL (cs.takeWhile p) + 1 else 0)
          = if c = ' ' then leadingSpacesL cs + 1 else 0
        rw [if_neg hsp, if_neg hsp]

theorem leadingSpacesL_replicate_append (n : Nat) (l : List Char) :
    leadingSpacesL (List.replicate n ' ' ++ l) = n + leadingSpacesL l := by
  induction n with
  | zero => simp
  | succ n ih =>
    rw [List.replicate_succ, List.cons_append]
    show (if (' ' = ' ') then leadingSpacesL (List.replicate n ' ' ++ l) + 1 else 0)
      = n + 1 + leadingSpacesL l
    rw [if_pos rfl, ih]
    omega

theorem firstLineLeadingSpaces_indent (d : Nat) (s : String)
    (h : leadingSpacesL s.data = 0) :
    firstLineLeadingSpaces (indent d ++ s) = 2 * d := by
  unfold firstLineLeadingSpaces
  rw [leadingSpacesL_takeWhile _ (by decide), String.data_append]
  have hd : (indent d).data = List.replicate (2 * d) ' ' := rfl
  rw [hd, leadingSpacesL_replicate_append, h]
  omega

theorem exists_drop_left (a b : String) : ∃ s, a ++ b = a ++ s := ⟨b, rfl⟩

theorem exists_drop_right (a b : String) : ∃ p, a ++ b = p ++ b := ⟨a, rfl⟩

theorem stringifyBlock_indent_prefix :
    ∀ (b : Block) (d : Nat), stringifyBlock b d ≠ "" →
      ∃ s, stringifyBlock b d = indent d ++ s := by
  intro b d hne
  obtain ⟨id, hc, payload, children⟩ := b
  cases payload
  case paragraph rt =>
    by_cases h : (toInlineMarkdown rt).length > 0
    · simp only [stringifyBlock]
      rw [if_pos h]
      simp only [String.append_assoc]
      exact exists_drop_left _ _
    · exfalso
      apply hne
      simp only [stringifyBlock]
      rw [if_neg h]
  all_goals
    simp only [stringifyBlock]
    try simp only [String.append_assoc]
    exact exists_drop_left _ _

theorem stringifyBlock_children_suffix :
    ∀ (b : Block) (d : Nat), appendsChildren b = true → blockNested b ≠ [] →
      ∃ p, stringifyBlock b d = p ++ stringifyBlocks (blockNested b) (d + 1) := by
  intro b d hap hne
  obtain ⟨id, hc, payload, children⟩ := b
  have hhc : hc = true := by
    cases hc
    · exfalso
      apply hne
      simp [blockNested]
    · rfl
  subst hhc
  have hch : children ≠ [] := by simpa [blockNested] using hne
  have hlen : children.length > 0 := List.length_pos.mpr hch
  have hnested : blockNested (.node id true payload children) = children := by
    simp [blockNested]
  rw [hnested]
  cases payload
  case paragraph rt =>
    have htext : (toInlineMarkdown rt).length > 0 := by
      simpa [appendsChildren] using hap
    simp only [stringifyBlock, stringifyBlocks, eq_self_iff_true, if_true, hlen, htext]
    simp only [← String.append_assoc]
    exact exists_drop_right _ _
  all_goals try simp [appendsChildren] at hap
  all_goals
    simp only [stringifyBlock, stringifyBlocks, eq_self_iff_true, if_true, hlen]
    simp only [← String.append_assoc]
    exact exists_drop_right _ _

/-- C9 is refuted: a childless paragraph whose composed text starts with a
space renders at depth 1 with three leading spaces on its first (only) line,
not the claimed `2·d = 2`. -/
theorem c9_counterexample :
    stringifyBlock spaceParagraph 1 ≠ "" ∧
    firstLineLeadingSpaces (stringifyBlock spaceParagraph 1) = 3 ∧
    (3 : Nat) ≠ 2 * 1 := by
  decide

/-- C9 amended: every block with non-empty rendered output renders as exactly
`2·d` spaces followed by its template content, and when that content does not
itself begin with a space (every kind except a paragraph whose composed text
starts with whitespace) the leading space count of the output's first line is
exactly `2·d`; every block kind that appends children renders them at depth
`d + 1`, their joined rendering appearing as a suffix of the parent's
output. -/
theorem c9_depth_indentation :
    ∀ (b : Block) (d : Nat),
      (stringifyBlock b d ≠ "" →
        ∃ s, stringifyBlock b d = indent d ++ s ∧
          (leadingSpacesL s.data = 0 →
            firstLineLeadingSpaces (stringifyBlock b d) = 2 * d)) ∧
      (appendsChildren b = true → blockNested b ≠ [] →
        ∃ p, stringifyBlock b d = p ++ stringifyBlocks (blockNested b) (d + 1)) := by
  intro b d
  constructor
  · intro hne
    rcases stringifyBlock_indent_prefix b d hne with ⟨s, hs⟩
    refine ⟨s, hs, fun h0 => ?_⟩
    rw [hs]
    exact firstLineLeadingSpaces_indent d s h0
  · exact stringifyBlock_children_suffix b d

/-- Witness for C9 at a concrete input. -/
theorem c9_depth_indentation_witness :
    (∃ s, stringifyBlock demoQuote 0 = indent 0 ++ s ∧
      (leadingSpacesL s.data = 0 →
        firstLineLeadingSpaces (stringifyBlock demoQuote 0) = 2 * 0)) ∧
    (∃ p, stringifyBlock demoQuote 0
        = p ++ stringifyBlocks (blockNested demoQuote) (0 + 1)) :=
  ⟨(c9_depth_indentation demoQuote 0).1 (by decide),
   (c9_depth_indentation demoQuote 0).2 (by decide)
     (by intro h; simp [demoQuote, blockNested] at h)⟩

/-! ## C4 -/

theorem fetchPage_eq_trace {α : Type} (f : Option String → ListResponse α) :
    ∀ (fuel : Nat) (cursor : Option String) (acc out : List α),
      fetchPage f fuel cursor acc = some out →
      out = acc ++ ((pageTrace f fuel cursor).map fun r => fullItems r.results).flatten := by
  intro fuel
  induction fuel with
  | zero =>
    intro cursor acc out h
    exact absurd h (by simp [fetchPage])
  | succ fuel ih =>
    intro cursor acc out h
    simp only [fetchPage] at h
    cases hm : (f cursor).has_more with
    | false =>
      rw [hm] at h
      simp only [Option.some.injEq] at h
      subst h
      simp [pageTrace, hm]
    | true =>
      rw [hm] at h
      cases hc : (f cursor).next_cursor with
      | none =>
        rw [hc] at h
        simp only [Option.some.injEq] at h
        subst h
        simp [pageTrace, hm, hc]
      | some next =>
        rw [hc] at h
        have h' : (if next.length = 0 then some (acc ++ fullItems (f cursor).results)
            else fetchPage f fuel (some next) (acc ++ fullItems (f cursor).results))
            = some out := h
        by_cases hl : next.length = 0
        · rw [if_pos hl] at h'
          simp only [Option.some.injEq] at h'
          subst h'
          simp [pageTrace, hm, hc, hl]
        · rw [if_neg hl] at h'
          have := ih (some next) (acc ++ fullItems (f cursor).results) out h'
          rw [this]
          simp [pageTrace, hm, hc, hl, List.append_assoc]

theorem pageTrace_chain {α : Type} (f : Option String → ListResponse α) :
    ∀ (fuel : Nat) (cursor : Option String),
      ∀ r ∈ (pageTrace f fuel cursor).dropLast,
        r.has_more = true ∧ ∃ s, r.next_cursor = some s ∧ s.length ≠ 0 := by
  intro fuel
  induction fuel with
  | zero =>
    intro cursor r hr
    exact absurd hr (by simp [pageTrace])
  | succ fuel ih =>
    intro cursor r hr
    simp only [pageTrace] at hr
    cases hm : (f cursor).has_more with
    | false =>
      rw [hm] at hr
      simp at hr
    | true =>
      rw [hm] at hr
      cases hc : (f cursor).next_cursor with
      | none =>
        rw [hc] at hr
        simp at hr
      | some next =>
        rw [hc] at hr
        have hr' : r ∈ (if next.length = 0 then [f cursor]
            else f cursor :: pageTrace f fuel (some next)).dropLast := hr
        by_cases hl : next.length = 0
        · rw [if_pos hl] at hr'
          simp at hr'
        · rw [if_neg hl] at hr'
          cases htr : pageTrace f fuel (some next) with
          | nil =>
            rw [htr] at hr'
            simp at hr'
          | cons a l =>
            rw [htr, List.dropLast_cons_of_ne_nil (List.cons_ne_nil a l)] at hr'
            rcases List.mem_cons.mp hr' with h | h
            · subst h
              exact ⟨hm, next, hc, hl⟩
            · exact ih (some next) r (htr ▸ h)

/-- C4: the pagination loop returns exactly the full items of the responses
it received, concatenated in response order (`pageTrace` is that sequence of
responses), including the single-page and zero-item cases; every response
except possibly the last had `has_more` set together with a present (non-null
non-empty — the script's truthiness test) cursor, which is exactly when the
loop requests another page; and a response with `has_more` set but no cursor
is terminal: the loop stops and returns the accumulated items instead of
looping or raising. -/
theorem c4_pagination_collects_all :
    (∀ (α : Type) (f : Option String → ListResponse α) (fuel : Nat)
        (cursor : Option String) (acc out : List α),
      fetchPage f fuel cursor acc = some out →
      out = acc ++ ((pageTrace f fuel cursor).map fun r => fullItems r.results).flatten) ∧
    (∀ (α : Type) (f : Option String → ListResponse α) (fuel : Nat)
        (cursor : Option String),
      ∀ r ∈ (pageTrace f fuel cursor).dropLast,
        r.has_more = true ∧ ∃ s, r.next_cursor = some s ∧ s.length ≠ 0) ∧
    (∀ (α : Type) (f : Option String → ListResponse α) (fuel : Nat)
        (cursor : Option String) (acc : List α),
      (f cursor).has_more = true → (f cursor).next_cursor = none →
      fetchPage f (fuel + 1) cursor acc = some (acc ++ fullItems (f cursor).results)) := by
  refine ⟨fun α f => fetchPage_eq_trace f, fun α f => pageTrace_chain f, ?_⟩
  intro α f fuel cursor acc h1 h2
  simp only [fetchPage, h1, h2]

/-- Witness for C4 at a concrete two-page source whose second response is
malformed (`has_more` with no cursor): items are collected in order, exactly
once, and the loop stops. -/
theorem c4_pagination_collects_all_witness :
    ([1, 2, 3] : List Nat)
        = [] ++ ((pageTrace twoPageFetch 2 none).map fun r => fullItems r.results).flatten ∧
    fetchPage twoPageFetch 1 (some "next") []
        = some ([] ++ fullItems (twoPageFetch (some "next")).results) ∧
    ((twoPageFetch none).has_more = true ∧
      ∃ s, (twoPageFetch none).next_cursor = some s ∧ s.length ≠ 0) :=
  ⟨c4_pagination_collects_all.1 Nat twoPageFetch 2 none [] [1, 2, 3] (by decide),
   c4_pagination_collects_all.2.2 Nat twoPageFetch 0 (some "next") [] (by decide) (by decide),
   c4_pagination_collects_all.2.1 Nat twoPageFetch 2 none (twoPageFetch none) (by decide)⟩

/-! ## C10 -/

/-- C10: when the database reports more than one data source (indeed for any
tail of further sources), `fetchAllPages` drains the pagination loop of the
first reported data source only — the result is unchanged under any change of
the other data sources or of what the endpoint returns for them, so their
pages are never returned — and no error is raised on account of the extra
sources: any produced result is an `ok`. -/
theorem c10_first_data_source_only :
    ∀ (α : Type) (d : DataSource) (rest rest' : List DataSource)
      (q q' : String → Option String → ListResponse α) (fuel : Nat),
      (q d.id = q' d.id →
        fetchAllPages ⟨d :: rest⟩ q fuel = fetchAllPages ⟨d :: rest'⟩ q' fuel) ∧
      fetchAllPages ⟨d :: rest⟩ q fuel
        = (fetchPage (q d.id) fuel none []).map Except.ok ∧
      (∀ result, fetchAllPages ⟨d :: rest⟩ q fuel = some result →
        ∃ pages, result = Except.ok pages) := by
  intro α d rest rest' q q' fuel
  refine ⟨fun h => ?_, rfl, fun result h => ?_⟩
  · show (fetchPage (q d.id) fuel none []).map Except.ok
      = (fetchPage (q' d.id) fuel none []).map Except.ok
    rw [h]
  · have h' : (fetchPage (q d.id) fuel none []).map Except.ok = some result := h
    rcases Option.map_eq_some'.mp h' with ⟨pages, _, hq⟩
    exact ⟨pages, hq.symm⟩

/-- Witness for C10 at a concrete database with two data sources. -/
theorem c10_first_data_source_only_witness :
    fetchAllPages ⟨[⟨"ds1"⟩, ⟨"ds2"⟩]⟩ emptyQuery 1
        = fetchAllPages ⟨[⟨"ds1"⟩]⟩ emptyQuery 1 ∧
    (∃ pages, (Except.ok [] : Except String (List Nat)) = Except.ok pages) :=
  ⟨(c10_first_data_source_only Nat ⟨"ds1"⟩ [⟨"ds2"⟩] [] emptyQuery emptyQuery 1).1 rfl,
   (c10_first_data_source_only Nat ⟨"ds1"⟩ [⟨"ds2"⟩] [] emptyQuery emptyQuery 1).2.2
     (Except.ok []) rfl⟩

end NotionExport
